import Mathlib

/-!
Verification of the dynamic model-routing subsystem of the memory-mongodb
plugin: prompt classification, tier escalation, routing-rule resolution,
routing-context cache, incremental model merge, and the per-model circuit
breaker.  Each definition is a shallow embedding of the corresponding
TypeScript function; timestamps are modelled as integers (milliseconds),
JavaScript `Map`/object records as insertion-ordered association lists, and
the (stable, per ES2019) `Array.prototype.sort` as `List.mergeSort`.
-/

set_option maxHeartbeats 1000000

-- ==========================================================================
-- Data model (src/extensions/memory-mongodb/src/collections/routing.ts)
-- ==========================================================================

/-- `reasoning` capability level of a model. -/
inductive Reasoning where
  | light
  | standard
  | deep
deriving DecidableEq, Repr

/-- `capabilities` record of a routing model (declared fields only). -/
structure Capabilities where
  tools : Bool
  filesystem : Bool
  code_execution : Bool
  reasoning : Reasoning
deriving DecidableEq, Repr

/-- `RoutingModel`: a callable backend entry of the routing context. -/
structure RoutingModel where
  id : String
  «alias» : String
  tier : String
  capabilities : Capabilities
  use_when : List String
  never_when : List String
  active : Option Bool
deriving DecidableEq, Repr

/-- `RoutingRule`: one entry of the ordered rule list. -/
structure RoutingRule where
  «if» : String
  tools_in_context : Bool
  «then» : String
  priority : Int
  reason : Option String
deriving DecidableEq, Repr

/-- `RoutingRules`: rule list plus default-tier policy. -/
structure RoutingRules where
  default_tier : String
  ambiguous_action : String
  capability_constraint : String
  rules : List RoutingRule
deriving DecidableEq, Repr

/-- `ClassificationCategory`: declared complexity range of a category. -/
structure ClassificationCategory where
  complexity_range : Int × Int
  description : String
deriving DecidableEq, Repr

/-- `ClassificationConfig`: categories, indicator lists, path patterns and
the code-block regular expression (kept as its source string). -/
structure ClassificationConfig where
  categories : List (String × ClassificationCategory)
  indicators : List (String × List String)
  path_patterns : List String
  code_block_regex : String
deriving DecidableEq, Repr

/-- `EscalationConfig` (informational keyword lists). -/
structure EscalationConfig where
  triggers : List String
  de_escalation_triggers : List String
deriving DecidableEq, Repr

/-- `RoutingContextDoc`: the per-agent routing configuration document. -/
structure RoutingContextDoc where
  agent_id : String
  version : Int
  models : List RoutingModel
  models_hash : Option String
  classification : ClassificationConfig
  routing : RoutingRules
  escalation : EscalationConfig
  created_at : Int
  updated_at : Int
deriving DecidableEq, Repr

-- ==========================================================================
-- Tier escalation (collections/routing.ts, getModelByTierWithEscalation)
-- ==========================================================================

/-- `TIER_ESCALATION[startTier] ?? [startTier]`: the escalation chain walked
from a starting tier. -/
def tierChain (startTier : String) : List String :=
  if startTier = "fast" then ["fast", "mid", "heavy"]
  else if startTier = "mid" then ["mid", "heavy"]
  else if startTier = "heavy" then ["heavy"]
  else [startTier]

/-- Body of the candidate filter at one tier of the escalation chain:
`if (m.tier !== tier || m.active === false) return false;
 if (requireTools && !m.capabilities.tools) return false;
 if (isModelHealthy && !isModelHealthy(m.id)) return false; return true`. -/
def escKeep (tier : String) (requireTools : Bool)
    (isModelHealthy : Option (String → Bool)) (m : RoutingModel) : Bool :=
  if m.tier ≠ tier ∨ m.active = some false then false
  else if requireTools && !m.capabilities.tools then false
  else
    match isModelHealthy with
    | some f => f m.id
    | none => true

/-- The candidate list computed at one tier of the escalation chain. -/
def escCandidates (doc : RoutingContextDoc) (tier : String) (requireTools : Bool)
    (isModelHealthy : Option (String → Bool)) : List RoutingModel :=
  doc.models.filter (escKeep tier requireTools isModelHealthy)

/-- The `for (const tier of chain)` loop body: first tier with a non-empty
candidate set wins and its first candidate is returned. -/
def escalateChain (doc : RoutingContextDoc) (chain : List String) (requireTools : Bool)
    (isModelHealthy : Option (String → Bool)) : Option (RoutingModel × String) :=
  match chain with
  | [] => none
  | tier :: rest =>
    match escCandidates doc tier requireTools isModelHealthy with
    | [] => escalateChain doc rest requireTools isModelHealthy
    | m :: _ => some (m, tier)

/-- `getModelByTierWithEscalation(doc, startTier, requireTools, isModelHealthy?)`. -/
def getModelByTierWithEscalation (doc : RoutingContextDoc) (startTier : String)
    (requireTools : Bool) (isModelHealthy : Option (String → Bool)) :
    Option (RoutingModel × String) :=
  escalateChain doc (tierChain startTier) requireTools isModelHealthy

-- ==========================================================================
-- JavaScript Map / object records as insertion-ordered association lists
-- ==========================================================================

/-- `Map.get` / object property lookup. -/
def mapGet {V : Type} (m : List (String × V)) (k : String) : Option V :=
  (m.find? (fun p => p.1 == k)).map (fun p => p.2)

/-- `Map.set` / object property assignment: update in place when the key is
present, append otherwise (JS Maps and objects preserve insertion order). -/
def mapSet {V : Type} (m : List (String × V)) (k : String) (v : V) : List (String × V) :=
  if m.any (fun p => p.1 == k) then m.map (fun p => if p.1 == k then (k, v) else p)
  else m ++ [(k, v)]

/-- `Map.delete`. -/
def mapDelete {V : Type} (m : List (String × V)) (k : String) : List (String × V) :=
  m.filter (fun p => p.1 != k)

-- ==========================================================================
-- Circuit breaker (src/extensions/memory-mongodb/src/provider-health.ts)
-- ==========================================================================

/-- `CircuitBreakerConfig`. -/
structure CircuitBreakerConfig where
  failureThreshold : Nat
  cooldownMs : Int
  windowMs : Int
deriving DecidableEq, Repr

/-- `DEFAULT_CIRCUIT_BREAKER`. -/
def DEFAULT_CIRCUIT_BREAKER : CircuitBreakerConfig := ⟨3, 300000, 600000⟩

/-- Per-model health record. -/
structure ModelHealth where
  consecutiveFailures : Nat
  lastFailureAt : Int
  lastSuccessAt : Int
deriving DecidableEq, Repr

/-- Pending decision record bound to a session key. -/
structure Decision where
  modelId : String
  timestamp : Int
deriving DecidableEq, Repr

/-- `DECISION_TTL_MS = 30 * 60_000`. -/
def DECISION_TTL_MS : Int := 30 * 60000

/-- `MAX_DECISIONS = 10_000`. -/
def MAX_DECISIONS : Nat := 10000

/-- `CircuitState`. -/
inductive CircuitState where
  | closed
  | «open»
  | halfOpen
deriving DecidableEq, Repr

/-- The two mutable maps of `ProviderHealthTracker`. -/
structure TrackerState where
  health : List (String × ModelHealth)
  decisions : List (String × Decision)
deriving DecidableEq, Repr

/-- A freshly constructed tracker. -/
def emptyTracker : TrackerState := ⟨[], []⟩

/-- `ProviderHealthTracker.getState` with `Date.now()` passed explicitly. -/
def getState (cfg : CircuitBreakerConfig) (st : TrackerState) (modelId : String)
    (now : Int) : CircuitState :=
  match mapGet st.health modelId with
  | none => .closed
  | some h =>
    if h.consecutiveFailures < cfg.failureThreshold then .closed
    else if cfg.cooldownMs ≤ now - h.lastFailureAt then .halfOpen
    else .«open»

/-- `ProviderHealthTracker.isHealthy`. -/
def isHealthy (cfg : CircuitBreakerConfig) (st : TrackerState) (modelId : String)
    (now : Int) : Bool :=
  getState cfg st modelId now ≠ CircuitState.«open»

/-- `ProviderHealthTracker.evictStale`. -/
def evictStale (ds : List (String × Decision)) (now : Int) : List (String × Decision) :=
  ds.filter (fun p => !(p.2.timestamp < now - DECISION_TTL_MS))

/-- `ProviderHealthTracker.recordDecision`. -/
def recordDecision (st : TrackerState) (sessionKey modelId : String) (now : Int) :
    TrackerState :=
  let ds := mapSet st.decisions sessionKey ⟨modelId, now⟩
  if ds.length > MAX_DECISIONS then { st with decisions := evictStale ds now }
  else { st with decisions := ds }

/-- `ProviderHealthTracker.recordOutcome` (the error argument is unused by
the source and omitted). -/
def recordOutcome (cfg : CircuitBreakerConfig) (st : TrackerState) (sessionKey : String)
    (success : Bool) (now : Int) : TrackerState :=
  match mapGet st.decisions sessionKey with
  | none => st
  | some d =>
    let ds := mapDelete st.decisions sessionKey
    let h := (mapGet st.health d.modelId).getD ⟨0, 0, 0⟩
    let h' :=
      if success then { h with consecutiveFailures := 0, lastSuccessAt := now }
      else if h.lastFailureAt > 0 ∧ now - h.lastFailureAt > cfg.windowMs then
        { h with consecutiveFailures := 1, lastFailureAt := now }
      else
        { h with consecutiveFailures := h.consecutiveFailures + 1, lastFailureAt := now }
    { health := mapSet st.health d.modelId h', decisions := ds }

/-- One routed run that fails: the gateway records the decision for the
session, the run fails, and the outcome is reported. -/
def failureRound (cfg : CircuitBreakerConfig) (st : TrackerState) (sessionKey modelId : String)
    (t : Int) : TrackerState :=
  recordOutcome cfg (recordDecision st sessionKey modelId t) sessionKey false t

/-- A whole sequence of failing routed runs at the given times. -/
def runFailures (cfg : CircuitBreakerConfig) (sessionKey modelId : String)
    (ts : List Int) : TrackerState :=
  ts.foldl (fun st t => failureRound cfg st sessionKey modelId t) emptyTracker

/-- Failure times form a streak: each failure is within `windowMs` of the
previous one (a non-positive previous timestamp also continues the streak,
matching the `lastFailureAt > 0` guard of the source). -/
def chainFrom (w : Int) (tp : Int) : List Int → Bool
  | [] => true
  | t :: ts => (decide (tp ≤ 0) || decide (t - tp ≤ w)) && chainFrom w t ts

-- ==========================================================================
-- String primitives used by the classifier and the resolver
-- ==========================================================================

/-- `needle.isPrefixOf hay || ...` scan implementing JS `String.includes`
on character lists. -/
def containsSub (hay needle : List Char) : Bool :=
  match hay with
  | [] => needle.isEmpty
  | _ :: t => needle.isPrefixOf hay || containsSub t needle

/-- JS `hay.includes(needle)`. -/
def strIncludes (hay needle : String) : Bool :=
  containsSub hay.data needle.data

/-- JS `String.toLowerCase` (character-wise lowercasing). -/
def jsToLower (s : String) : String :=
  ⟨s.data.map Char.toLower⟩

/-- JS string interpolation of a boolean. -/
def boolStr (b : Bool) : String :=
  if b then "true" else "false"

-- ==========================================================================
-- Prompt classifier (src/extensions/memory-mongodb/src/routing.ts, classifyPrompt)
-- ==========================================================================

/-- `ClassificationResult`. -/
structure ClassificationResult where
  category : String
  complexity : Int
  matchedIndicators : List String
deriving DecidableEq, Repr

/-- Inner loop of `classifyPrompt`: how many of one category's indicator
substrings occur in the lowercased prompt. -/
def indicatorScore (lower : String) (inds : List String) : Nat :=
  inds.foldl (fun s ind => if strIncludes lower (jsToLower ind) then s + 1 else s) 0

/-- The `"<category>:<indicator>"` entries pushed for one category. -/
def indicatorMatches (lower : String) (category : String) (inds : List String) :
    List String :=
  inds.foldl
    (fun acc ind =>
      if strIncludes lower (jsToLower ind) then acc ++ [category ++ ":" ++ ind] else acc)
    []

/-- The `categoryScores` object after the indicator loop (only categories
with a positive score are stored). -/
def baseScores (lower : String) (indicators : List (String × List String)) :
    List (String × Nat) :=
  indicators.foldl
    (fun m p =>
      let sc := indicatorScore lower p.2
      if sc > 0 then mapSet m p.1 sc else m)
    []

/-- `categoryScores.CODE = (categoryScores.CODE ?? 0) + n`. -/
def boostCode (m : List (String × Nat)) (n : Nat) : List (String × Nat) :=
  mapSet m "CODE" ((mapGet m "CODE").getD 0 + n)

/-- The full `categoryScores` object: indicator scores, then the path-pattern
boost, then the code-block-regex boost.  The regular-expression engine is
modelled as an oracle `regexTest regexSource prompt`. -/
def classifyScores (regexTest : String → String → Bool) (prompt : String)
    (c : ClassificationConfig) : List (String × Nat) :=
  let lower := jsToLower prompt
  let s0 := baseScores lower c.indicators
  let s1 := if c.path_patterns.any (fun p => strIncludes prompt p) then boostCode s0 1 else s0
  if regexTest c.code_block_regex prompt then boostCode s1 2 else s1

/-- The `bestCategory`/`bestScore` selection loop (strictly-greater update,
seeded with `("CHAT", 0)`). -/
def pickBest (m : List (String × Nat)) : String × Nat :=
  m.foldl (fun best p => if p.2 > best.2 then p else best) ("CHAT", 0)

/-- `classifyPrompt(prompt, classification)` with the regex engine passed
as an oracle. -/
def classifyPrompt (regexTest : String → String → Bool) (prompt : String)
    (c : ClassificationConfig) : ClassificationResult :=
  let lower := jsToLower prompt
  let best := pickBest (classifyScores regexTest prompt c)
  let range := ((mapGet c.categories best.1).map (fun cd => cd.complexity_range)).getD (1, 3)
  { category := best.1
    complexity := min range.2 (range.1 + (best.2 : Int))
    matchedIndicators :=
      c.indicators.foldl (fun acc p => acc ++ indicatorMatches lower p.1 p.2) [] }

-- ==========================================================================
-- Routing resolver (src/extensions/memory-mongodb/src/routing.ts)
-- ==========================================================================

/-- The total preorder realized by the stable JS sort with comparator
`(a, b) => b.priority - a.priority`: `a` may precede `b` exactly when the
comparator is non-positive, i.e. `b.priority ≤ a.priority`. -/
def ruleLE (a b : RoutingRule) : Bool :=
  b.priority ≤ a.priority

/-- Lines 106–111 of routing.ts: filter the rules on
`(r.if === category && r.tools_in_context === toolsInContext)`, stable-sort
by priority descending, take the first. -/
def matchedRuleOf (doc : RoutingContextDoc) (category : String) (toolsInContext : Bool) :
    Option RoutingRule :=
  ((doc.routing.rules.filter fun r =>
      r.«if» == category && r.tools_in_context == toolsInContext).mergeSort ruleLE).head?

/-- Reference selection written from the spec's words: the rule with the
maximum priority, ties broken by original list order (the first such rule
in the stored list). -/
def bestRule : List RoutingRule → Option RoutingRule
  | [] => none
  | a :: t =>
    match bestRule t with
    | none => some a
    | some b => if a.priority < b.priority then some b else some a

/-- JS `String.split("/")` at character level. -/
def splitSlash : List Char → List (List Char)
  | [] => [[]]
  | c :: rest =>
    match splitSlash rest with
    | [] => if c = '/' then [[], []] else [[c]]
    | h :: t => if c = '/' then [] :: h :: t else (c :: h) :: t

/-- JS `Array.join("/")` at character level. -/
def joinSlash : List (List Char) → List Char
  | [] => []
  | [x] => x
  | x :: xs => x ++ '/' :: joinSlash xs

/-- `id.split("/")[0]`. -/
def providerOf (id : String) : String :=
  ⟨(splitSlash id.data).headD []⟩

/-- `id.split("/").slice(1).join("/")`. -/
def modelOf (id : String) : String :=
  ⟨joinSlash (splitSlash id.data).tail⟩

/-- `RoutingDecision`. -/
inductive RoutingDecision where
  | override (provider model reason category : String) (complexity : Int) (tier : String)
  | noOverride (reason category : String) (complexity : Int)
deriving DecidableEq, Repr

/-- `resolveRoutingOverride(prompt, routingDoc, toolsInContext, logger?,
agentId?, isModelHealthy?)`.  The logger and agent id only affect log lines
and are omitted; the regex engine is the same oracle as in `classifyPrompt`. -/
def resolveRoutingOverride (regexTest : String → String → Bool) (prompt : String)
    (routingDoc : RoutingContextDoc) (toolsInContext : Bool)
    (isModelHealthy : Option (String → Bool)) : RoutingDecision :=
  let r := classifyPrompt regexTest prompt routingDoc.classification
  let noRuleReason :=
    "no_rule_match category=" ++ r.category ++ " tools=" ++ boolStr toolsInContext ++
      " indicators=[" ++ String.intercalate "," r.matchedIndicators ++ "]"
  match matchedRuleOf routingDoc r.category toolsInContext with
  | none =>
    if routingDoc.routing.ambiguous_action = "use_default" then
      let tier := routingDoc.routing.default_tier
      match getModelByTierWithEscalation routingDoc tier toolsInContext isModelHealthy with
      | some (m, et) =>
        let reason := "no_rule_match, using default_tier=" ++ tier ++
          (if et ≠ tier then " (escalated→" ++ et ++ ")" else "")
        .override (providerOf m.id) (modelOf m.id) reason r.category r.complexity et
      | none => .noOverride noRuleReason r.category r.complexity
    else
      .noOverride noRuleReason r.category r.complexity
  | some rule =>
    let tier := rule.«then»
    match getModelByTierWithEscalation routingDoc tier toolsInContext isModelHealthy with
    | none =>
      .noOverride ("all_tiers_exhausted starting_tier=" ++ tier ++ " tools=" ++
        boolStr toolsInContext) r.category r.complexity
    | some (m, et) =>
      let reason :=
        match rule.reason with
        | some s => s ++ (if et ≠ tier then " (escalated " ++ tier ++ "→" ++ et ++ ")" else "")
        | none => "rule: " ++ r.category ++ "+tools=" ++ boolStr toolsInContext ++ "→" ++ et
      .override (providerOf m.id) (modelOf m.id) reason r.category r.complexity et

-- ==========================================================================
-- Routing context cache (collections/routing.ts, RoutingCache)
-- ==========================================================================

/-- `CacheEntry`. -/
structure CacheEntry where
  doc : RoutingContextDoc
  loadedAt : Int
deriving DecidableEq, Repr

/-- The private `cache` map of `RoutingCache`, keyed by agent id. -/
abbrev CacheState : Type := List (String × CacheEntry)

/-- `RoutingCache.get`, with `Date.now()` explicit and the document-store
read's resolved value passed as `store`.  Returns the result, the cache map
after the call, and whether an underlying store read was performed. -/
def cacheGet (ttlMs : Int) (st : CacheState) (agentId : String)
    (store : Option RoutingContextDoc) (now : Int) :
    Option RoutingContextDoc × CacheState × Bool :=
  match mapGet st agentId with
  | some cached =>
    if now - cached.loadedAt < ttlMs then (some cached.doc, st, false)
    else
      match store with
      | some d => (some d, mapSet st agentId ⟨d, now⟩, true)
      | none => (none, st, true)
  | none =>
    match store with
    | some d => (some d, mapSet st agentId ⟨d, now⟩, true)
    | none => (none, st, true)

/-- `RoutingCache.invalidate(agentId?)`. -/
def cacheInvalidate (st : CacheState) (agentId : Option String) : CacheState :=
  match agentId with
  | some aid => mapDelete st aid
  | none => []

/-- How one awaited document-store read can behave. -/
inductive StoreReadOutcome where
  | value : Option RoutingContextDoc → StoreReadOutcome
  | failure
  | hangs
deriving DecidableEq

/-- Result of awaiting an async computation: it returns, throws, or never
settles. -/
inductive AsyncResult (α : Type) where
  | returns : α → AsyncResult α
  | throws
  | diverges
deriving DecidableEq

/-- `RoutingCache.get` again, now with the store read's asynchronous outcome
explicit.  The source awaits `getRoutingContext(col, agentId)` directly —
there is no `withTimeout` wrapper on this path (unlike the bootstrap path,
which wraps its reads in `withTimeout(…, 3000)`) — so a read that never
settles makes `get` never return, and a rejected read makes `get` throw. -/
def cacheGetAsync (ttlMs : Int) (st : CacheState) (agentId : String)
    (outcome : StoreReadOutcome) (now : Int) :
    AsyncResult (Option RoutingContextDoc × CacheState) :=
  match mapGet st agentId with
  | some cached =>
    if now - cached.loadedAt < ttlMs then .returns (some cached.doc, st)
    else
      match outcome with
      | .value (some d) => .returns (some d, mapSet st agentId ⟨d, now⟩)
      | .value none => .returns (none, st)
      | .failure => .throws
      | .hangs => .diverges
  | none =>
    match outcome with
    | .value (some d) => .returns (some d, mapSet st agentId ⟨d, now⟩)
    | .value none => .returns (none, st)
    | .failure => .throws
    | .hangs => .diverges

-- ==========================================================================
-- Incremental model merge (collections/routing.ts, mergeModelsIncremental)
-- ==========================================================================

/-- `{ ...m, active: false }`. -/
def deactivate (m : RoutingModel) : RoutingModel :=
  { m with active := some false }

/-- `mergeModelsIncremental(existing, discovered)`: keep every existing
model (verbatim when its id is still discovered, otherwise marked
`active: false`), then append the newly discovered models. -/
def mergeModelsIncremental (existing discovered : List RoutingModel) :
    List RoutingModel :=
  (existing.map fun m =>
    if (discovered.map (fun m => m.id)).contains m.id then m else deactivate m) ++
    discovered.filter (fun m => !(existing.map (fun m => m.id)).contains m.id)

-- ==========================================================================
-- Heap model of the rule-selection lines (routing.ts lines 106–111)
-- ==========================================================================

/-- A tiny heap of rule arrays, for stating that the in-place
`Array.prototype.sort` of the resolver operates on the array freshly
allocated by `filter`, not on the array stored in the routing document. -/
abbrev RuleHeap : Type := List (List RoutingRule)

/-- Lines 106–111 of routing.ts against the heap: read the rules array from
the document's reference, `filter` allocates a fresh array, `sort` mutates
that fresh array in place, and the first element is selected. -/
def selectRuleHeap (heap : RuleHeap) (rulesRef : Nat) (category : String)
    (toolsInContext : Bool) : RuleHeap × Option RoutingRule :=
  let rules := heap.getD rulesRef []
  let filtered := rules.filter fun r =>
    r.«if» == category && r.tools_in_context == toolsInContext
  let heap1 := heap ++ [filtered]
  let sorted := filtered.mergeSort ruleLE
  let heap2 := heap1.set heap.length sorted
  (heap2, sorted.head?)

-- ==========================================================================
-- Concrete example inputs (used by witnesses and counterexamples)
-- ==========================================================================

/-- A fast-tier model without tool capability. -/
def fastM0 : RoutingModel := ⟨"p/f1", "f1", "fast", ⟨false, false, false, .light⟩, [], [], none⟩

/-- A mid-tier model with tool capability. -/
def midM0 : RoutingModel := ⟨"p/m1", "m1", "mid", ⟨true, false, false, .standard⟩, [], [], none⟩

/-- A classification config declaring only CHAT with range [1, 3]. -/
def classification0 : ClassificationConfig := ⟨[("CHAT", ⟨(1, 3), "chat"⟩)], [], [], "x"⟩

/-- A CHAT+tools rule targeting the fast tier, with no reason of its own. -/
def rule0 : RoutingRule := ⟨"CHAT", true, "fast", 1, none⟩

/-- The same rule carrying its own reason string. -/
def rule1 : RoutingRule := ⟨"CHAT", true, "fast", 1, some "prefer fast"⟩

/-- Routing context: the scenario of the spec (only fast model lacks tools,
a mid model has them), with the reasonless rule. -/
def doc0 : RoutingContextDoc :=
  ⟨"default", 1, [fastM0, midM0], none, classification0,
    ⟨"mid", "no_override", "", [rule0]⟩, ⟨[], []⟩, 0, 0⟩

/-- Same context with the reason-carrying rule. -/
def doc1 : RoutingContextDoc :=
  ⟨"default", 1, [fastM0, midM0], none, classification0,
    ⟨"mid", "no_override", "", [rule1]⟩, ⟨[], []⟩, 0, 0⟩

/-- A tracker with one pending decision for session key "k". -/
def tracker1 : TrackerState := ⟨[], [("k", ⟨"p/m1", 0⟩)]⟩

/-- The classifier scenario config: CHAT indicators "ciao", "come stai". -/
def classification1 : ClassificationConfig :=
  ⟨[("CHAT", ⟨(1, 3), "chat"⟩)], [("CHAT", ["ciao", "come stai"])], [], "x"⟩

/-- A higher-priority CHAT+tools rule targeting mid. -/
def rule2 : RoutingRule := ⟨"CHAT", true, "mid", 5, none⟩

/-- Context with two distinct-priority rules in one order. -/
def doc3 : RoutingContextDoc :=
  ⟨"default", 1, [fastM0, midM0], none, classification0,
    ⟨"mid", "no_override", "", [rule0, rule2]⟩, ⟨[], []⟩, 0, 0⟩

/-- Context with the same two rules in the opposite order. -/
def doc3' : RoutingContextDoc :=
  ⟨"default", 1, [fastM0, midM0], none, classification0,
    ⟨"mid", "no_override", "", [rule2, rule0]⟩, ⟨[], []⟩, 0, 0⟩

-- ==========================================================================
-- Supporting lemmas
-- ==========================================================================

lemma escKeep_eq_true_iff (tier : String) (rt : Bool) (h : Option (String → Bool))
    (m : RoutingModel) :
    escKeep tier rt h m = true ↔
      (m.tier = tier ∧ m.active ≠ some false ∧ (rt = true → m.capabilities.tools = true) ∧
       (∀ f, h = some f → f m.id = true)) := by
  unfold escKeep
  split
  next h1 =>
    simp only [Bool.false_eq_true, false_iff]
    intro ⟨ht, ha, _, _⟩
    rcases h1 with h1 | h1
    · exact h1 ht
    · exact ha h1
  next h1 =>
    push_neg at h1
    obtain ⟨ht, ha⟩ := h1
    split
    next h2 =>
      simp only [Bool.and_eq_true, Bool.not_eq_true'] at h2
      simp only [Bool.false_eq_true, false_iff]
      intro ⟨_, _, htl, _⟩
      rw [htl h2.1] at h2
      exact absurd h2.2 (by simp)
    next h2 =>
      simp only [Bool.and_eq_true, Bool.not_eq_true'] at h2
      push_neg at h2
      cases h with
      | none =>
        simp only [true_iff]
        refine ⟨ht, ha, ?_, by intro f hf; cases hf⟩
        intro hrt
        simpa using h2 hrt
      | some f =>
        constructor
        · intro hf
          refine ⟨ht, ha, fun hrt => by simpa using h2 hrt, ?_⟩
          intro g hg
          cases hg
          exact hf
        · intro ⟨_, _, _, hall⟩
          exact hall f rfl

lemma escalateChain_some_spec (doc : RoutingContextDoc) (rt : Bool)
    (h : Option (String → Bool)) :
    ∀ (chain : List String) (m : RoutingModel) (t : String),
      escalateChain doc chain rt h = some (m, t) →
      ∃ pre post, chain = pre ++ t :: post ∧
        (∀ t' ∈ pre, escCandidates doc t' rt h = []) ∧
        (escCandidates doc t rt h).head? = some m := by
  intro chain
  induction chain with
  | nil => intro m t hc; cases hc
  | cons tier rest ih =>
    intro m t hc
    unfold escalateChain at hc
    cases hcand : escCandidates doc tier rt h with
    | nil =>
      rw [hcand] at hc
      obtain ⟨pre, post, hpre, hempty, hhead⟩ := ih m t hc
      refine ⟨tier :: pre, post, by rw [hpre]; rfl, ?_, hhead⟩
      intro t' ht'
      rcases List.mem_cons.mp ht' with h1 | h1
      · subst h1; exact hcand
      · exact hempty t' h1
    | cons m0 ms =>
      rw [hcand] at hc
      cases hc
      refine ⟨[], rest, rfl, ?_, ?_⟩
      · intro t' ht'
        cases ht'
      · rw [hcand]
        rfl

lemma escalateChain_isSome (doc : RoutingContextDoc) (rt : Bool)
    (h : Option (String → Bool)) :
    ∀ (chain : List String), (∃ t ∈ chain, escCandidates doc t rt h ≠ []) →
      (escalateChain doc chain rt h).isSome = true := by
  intro chain
  induction chain with
  | nil => intro ⟨t, ht, _⟩; cases ht
  | cons tier rest ih =>
    intro ⟨t, ht, hne⟩
    unfold escalateChain
    cases hcand : escCandidates doc tier rt h with
    | nil =>
      apply ih
      rcases List.mem_cons.mp ht with h1 | h1
      · subst h1; exact absurd hcand hne
      · exact ⟨t, h1, hne⟩
    | cons m0 ms => rfl

-- ==========================================================================
-- C1
-- ==========================================================================

/-- C1: `getModelByTierWithEscalation` walks the chain fast→[fast,mid,heavy],
mid→[mid,heavy], heavy→[heavy]; any returned model has the matching tier, is
not inactive, has tool capability whenever tools are required, and passes the
supplied health predicate; the first tier in the chain with a non-empty
candidate set wins and its first candidate in list order is selected; and
whenever some tier in the chain has a qualifying model, a model is returned. -/
theorem getModelByTierWithEscalation_spec (doc : RoutingContextDoc) (startTier : String)
    (requireTools : Bool) (health : Option (String → Bool)) :
    (tierChain "fast" = ["fast", "mid", "heavy"] ∧ tierChain "mid" = ["mid", "heavy"] ∧
      tierChain "heavy" = ["heavy"]) ∧
    (∀ m t, getModelByTierWithEscalation doc startTier requireTools health = some (m, t) →
      m.tier = t ∧ m.active ≠ some false ∧
      (requireTools = true → m.capabilities.tools = true) ∧
      (∀ f, health = some f → f m.id = true) ∧
      ∃ pre post, tierChain startTier = pre ++ t :: post ∧
        (∀ t' ∈ pre, escCandidates doc t' requireTools health = []) ∧
        (escCandidates doc t requireTools health).head? = some m) ∧
    ((∃ t ∈ tierChain startTier, escCandidates doc t requireTools health ≠ []) →
      (getModelByTierWithEscalation doc startTier requireTools health).isSome = true) := by
  refine ⟨⟨rfl, rfl, rfl⟩, ?_, ?_⟩
  · intro m t hc
    obtain ⟨pre, post, hpre, hempty, hhead⟩ :=
      escalateChain_some_spec doc requireTools health (tierChain startTier) m t hc
    have hmem : m ∈ escCandidates doc t requireTools health := by
      cases hcand : escCandidates doc t requireTools health with
      | nil => rw [hcand] at hhead; cases hhead
      | cons a l =>
        rw [hcand] at hhead
        injection hhead with h1
        subst h1
        exact List.mem_cons_self _ _
    have hkeep : escKeep t requireTools health m = true := (List.mem_filter.mp hmem).2
    obtain ⟨h1, h2, h3, h4⟩ := (escKeep_eq_true_iff t requireTools health m).mp hkeep
    exact ⟨h1, h2, h3, h4, pre, post, hpre, hempty, hhead⟩
  · exact escalateChain_isSome doc requireTools health (tierChain startTier)

/-- Witness for C1 at the concrete scenario context. -/
theorem getModelByTierWithEscalation_spec_witness :
    getModelByTierWithEscalation doc0 "fast" true (some fun _ => true) = some (midM0, "mid") ∧
    midM0.tier = "mid" ∧ midM0.capabilities.tools = true := by
  have h := (getModelByTierWithEscalation_spec doc0 "fast" true (some fun _ => true)).2.1
    midM0 "mid" rfl
  exact ⟨rfl, h.1, h.2.2.1 rfl⟩

lemma mapGet_cons {V : Type} (p : String × V) (t : List (String × V)) (k : String) :
    mapGet (p :: t) k = if p.1 == k then some p.2 else mapGet t k := by
  unfold mapGet
  rw [List.find?]
  cases h : p.1 == k <;> simp [h]

lemma mapGet_set_self {V : Type} (k : String) (v : V) : ∀ (m : List (String × V)),
    mapGet (mapSet m k v) k = some v := by
  intro m
  unfold mapSet
  split
  next hany =>
    induction m with
    | nil => cases hany
    | cons p t ih =>
      simp only [List.any_cons, Bool.or_eq_true] at hany
      by_cases hk : (p.1 == k) = true
      · rw [List.map_cons, if_pos hk, mapGet_cons]
        simp
      · have ht : t.any (fun p => p.1 == k) = true := by
          rcases hany with h1 | h1
          · exact absurd h1 hk
          · exact h1
        rw [List.map_cons, if_neg hk, mapGet_cons, if_neg hk]
        exact ih ht
  next hany =>
    induction m with
    | nil => simp [mapGet_cons]
    | cons p t ih =>
      simp only [List.any_cons, Bool.or_eq_true, not_or] at hany
      rw [List.cons_append, mapGet_cons, if_neg hany.1]
      exact ih hany.2

lemma mapGet_delete_self {V : Type} (k : String) : ∀ (m : List (String × V)),
    mapGet (mapDelete m k) k = none := by
  intro m
  induction m with
  | nil => rfl
  | cons p t ih =>
    unfold mapDelete at ih ⊢
    rw [List.filter_cons]
    by_cases hk : (p.1 == k) = true
    · rw [if_neg (by simp [bne, hk])]
      exact ih
    · rw [if_pos (by simp [bne]; simpa using hk), mapGet_cons, if_neg hk]
      exact ih

lemma failureRound_state (cfg : CircuitBreakerConfig) (key id : String) (t : Int)
    (st : TrackerState) (hdec : st.decisions = []) :
    failureRound cfg st key id t =
      { health :=
          mapSet st.health id
            (let h := (mapGet st.health id).getD ⟨0, 0, 0⟩
             if h.lastFailureAt > 0 ∧ t - h.lastFailureAt > cfg.windowMs then
               { h with consecutiveFailures := 1, lastFailureAt := t }
             else
               { h with consecutiveFailures := h.consecutiveFailures + 1, lastFailureAt := t }),
        decisions := [] } := by
  unfold failureRound recordDecision recordOutcome
  rw [hdec]
  have hset : mapSet ([] : List (String × Decision)) key ⟨id, t⟩ = [(key, ⟨id, t⟩)] := rfl
  rw [hset]
  rw [if_neg (by simp [MAX_DECISIONS])]
  simp only
  rw [mapGet_cons, if_pos (by simp)]
  simp only [Option.getD_some]
  have hdel : mapDelete [(key, (⟨id, t⟩ : Decision))] key = [] := by
    unfold mapDelete
    rw [List.filter_cons]
    simp [bne]
  rw [hdel]
  rw [if_neg (by simp)]

lemma failureRound_some (cfg : CircuitBreakerConfig) (key id : String) (t : Int)
    (st : TrackerState) (h : ModelHealth) (hdec : st.decisions = [])
    (hget : mapGet st.health id = some h)
    (hok : h.lastFailureAt ≤ 0 ∨ t - h.lastFailureAt ≤ cfg.windowMs) :
    failureRound cfg st key id t =
      { health := mapSet st.health id
          { h with consecutiveFailures := h.consecutiveFailures + 1, lastFailureAt := t },
        decisions := [] } := by
  rw [failureRound_state cfg key id t st hdec]
  simp only [hget, Option.getD_some]
  rw [if_neg (by rcases hok with h1 | h1 <;> (intro ⟨ha, hb⟩; omega))]

lemma failureRound_from_empty (cfg : CircuitBreakerConfig) (key id : String) (t : Int) :
    failureRound cfg emptyTracker key id t =
      { health := [(id, ⟨1, t, 0⟩)], decisions := [] } := by
  rw [failureRound_state cfg key id t emptyTracker rfl]
  have hget : mapGet emptyTracker.health id = none := rfl
  simp only [hget, Option.getD_none]
  rw [if_neg (by intro ⟨ha, _⟩; exact absurd ha (by decide))]
  rfl

lemma runFrom_health (cfg : CircuitBreakerConfig) (key id : String) :
    ∀ (ts : List Int) (st : TrackerState) (h : ModelHealth),
      st.decisions = [] →
      mapGet st.health id = some h →
      chainFrom cfg.windowMs h.lastFailureAt ts = true →
      ∃ h' : ModelHealth,
        mapGet (ts.foldl (fun s t => failureRound cfg s key id t) st).health id = some h' ∧
        (ts.foldl (fun s t => failureRound cfg s key id t) st).decisions = [] ∧
        h'.consecutiveFailures = h.consecutiveFailures + ts.length ∧
        h'.lastFailureAt = ts.getLastD h.lastFailureAt ∧
        h'.lastSuccessAt = h.lastSuccessAt := by
  intro ts
  induction ts with
  | nil =>
    intro st h hdec hget _
    exact ⟨h, hget, hdec, by simp, rfl, rfl⟩
  | cons t ts' ih =>
    intro st h hdec hget hchain
    simp only [chainFrom, Bool.and_eq_true, Bool.or_eq_true, decide_eq_true_eq] at hchain
    obtain ⟨hok, hrest⟩ := hchain
    rw [List.foldl_cons]
    rw [failureRound_some cfg key id t st h hdec hget hok]
    obtain ⟨h', hget', hdec', hcf, hlf, hls⟩ := ih
      { health := mapSet st.health id
          { h with consecutiveFailures := h.consecutiveFailures + 1, lastFailureAt := t },
        decisions := [] }
      { h with consecutiveFailures := h.consecutiveFailures + 1, lastFailureAt := t }
      rfl (mapGet_set_self id _ st.health) (by simpa using hrest)
    refine ⟨h', hget', hdec', ?_, ?_, hls⟩
    · simp only at hcf
      rw [hcf]
      simp only [List.length_cons]
      omega
    · rw [hlf, List.getLastD_cons]

lemma getState_some (cfg : CircuitBreakerConfig) (st : TrackerState) (modelId : String)
    (now : Int) (h : ModelHealth) (hget : mapGet st.health modelId = some h) :
    getState cfg st modelId now =
      if h.consecutiveFailures < cfg.failureThreshold then .closed
      else if cfg.cooldownMs ≤ now - h.lastFailureAt then .halfOpen else .«open» := by
  unfold getState
  rw [hget]

/-- C2: starting from an empty tracker, after exactly `failureThreshold`
recorded failures for a model (each consuming a freshly recorded decision,
each within `windowMs` of the previous failure) with no intervening success,
`isHealthy` is false (state open) while less than `cooldownMs` has elapsed
since the last failure; once `cooldownMs` has elapsed the state is half-open
and `isHealthy` is true again with no explicit close call; and a single
successful outcome resets `consecutiveFailures` to 0 (state closed). -/
theorem circuitBreaker_opens_then_halfOpens (cfg : CircuitBreakerConfig)
    (key modelId : String) (ts : List Int)
    (hth : 1 ≤ cfg.failureThreshold)
    (hlen : ts.length = cfg.failureThreshold)
    (hchain : chainFrom cfg.windowMs 0 ts = true) :
    (∀ now : Int, now - ts.getLastD 0 < cfg.cooldownMs →
      isHealthy cfg (runFailures cfg key modelId ts) modelId now = false ∧
      getState cfg (runFailures cfg key modelId ts) modelId now = .«open») ∧
    (∀ now : Int, cfg.cooldownMs ≤ now - ts.getLastD 0 →
      isHealthy cfg (runFailures cfg key modelId ts) modelId now = true ∧
      getState cfg (runFailures cfg key modelId ts) modelId now = .halfOpen) ∧
    (∀ (key2 : String) (t2 now2 : Int),
      (mapGet (recordOutcome cfg
          (recordDecision (runFailures cfg key modelId ts) key2 modelId t2)
          key2 true t2).health modelId).map (fun h => h.consecutiveFailures) = some 0 ∧
      getState cfg (recordOutcome cfg
          (recordDecision (runFailures cfg key modelId ts) key2 modelId t2)
          key2 true t2) modelId now2 = .closed) := by
  cases ts with
  | nil => rw [List.length_nil] at hlen; omega
  | cons t0 rest =>
  simp only [chainFrom, Bool.and_eq_true] at hchain
  have hchain' : chainFrom cfg.windowMs t0 rest = true := hchain.2
  have hrun : runFailures cfg key modelId (t0 :: rest) =
      rest.foldl (fun s t => failureRound cfg s key modelId t)
        { health := [(modelId, ⟨1, t0, 0⟩)], decisions := [] } := by
    unfold runFailures
    rw [List.foldl_cons, failureRound_from_empty]
  have hget0 : mapGet ([(modelId, (⟨1, t0, 0⟩ : ModelHealth))]) modelId =
      some ⟨1, t0, 0⟩ := by
    rw [mapGet_cons, if_pos (by simp)]
  obtain ⟨h', hget', hdec', hcf, hlf, hls⟩ := runFrom_health cfg key modelId rest
    { health := [(modelId, ⟨1, t0, 0⟩)], decisions := [] } ⟨1, t0, 0⟩ rfl hget0 hchain'
  rw [← hrun] at hget' hdec'
  have hcf' : h'.consecutiveFailures = cfg.failureThreshold := by
    rw [hcf, ← hlen]
    simp only [List.length_cons]
    omega
  have hlf' : h'.lastFailureAt = (t0 :: rest).getLastD 0 := by
    rw [hlf, List.getLastD_cons]
  refine ⟨?_, ?_, ?_⟩
  · intro now hnow
    have hstate : getState cfg (runFailures cfg key modelId (t0 :: rest)) modelId now =
        .«open» := by
      rw [getState_some cfg _ modelId now h' hget']
      rw [if_neg (by omega), if_neg (by omega)]
    exact ⟨by unfold isHealthy; rw [hstate]; rfl, hstate⟩
  · intro now hnow
    have hstate : getState cfg (runFailures cfg key modelId (t0 :: rest)) modelId now =
        .halfOpen := by
      rw [getState_some cfg _ modelId now h' hget']
      rw [if_neg (by omega), if_pos (by omega)]
    exact ⟨by unfold isHealthy; rw [hstate]; rfl, hstate⟩
  · intro key2 t2 now2
    have hrd : recordDecision (runFailures cfg key modelId (t0 :: rest)) key2 modelId t2 =
        { health := (runFailures cfg key modelId (t0 :: rest)).health,
          decisions := [(key2, ⟨modelId, t2⟩)] } := by
      unfold recordDecision
      rw [hdec']
      rw [if_neg (by simp [MAX_DECISIONS, mapSet])]
      rfl
    have hdel : mapDelete [(key2, (⟨modelId, t2⟩ : Decision))] key2 = [] := by
      unfold mapDelete
      rw [List.filter_cons]
      simp [bne]
    have hro : recordOutcome cfg
        { health := (runFailures cfg key modelId (t0 :: rest)).health,
          decisions := [(key2, (⟨modelId, t2⟩ : Decision))] } key2 true t2 =
        { health := mapSet (runFailures cfg key modelId (t0 :: rest)).health modelId
            { h' with consecutiveFailures := 0, lastSuccessAt := t2 },
          decisions := [] } := by
      unfold recordOutcome
      rw [mapGet_cons]
      rw [if_pos (by simp)]
      simp only [hget', Option.getD_some, hdel]
      rw [if_pos trivial]
    rw [hrd, hro]
    constructor
    · rw [mapGet_set_self]
      rfl
    · rw [getState_some cfg _ modelId now2 _ (mapGet_set_self modelId _ _)]
      rw [if_pos (by show 0 < cfg.failureThreshold; omega)]


/-- Witness for C2 with the default breaker config and three failures. -/
theorem circuitBreaker_opens_then_halfOpens_witness :
    chainFrom DEFAULT_CIRCUIT_BREAKER.windowMs 0 [1, 2, 3] = true ∧
    isHealthy DEFAULT_CIRCUIT_BREAKER
      (runFailures DEFAULT_CIRCUIT_BREAKER "s" "p/m1" [1, 2, 3]) "p/m1" 4 = false ∧
    isHealthy DEFAULT_CIRCUIT_BREAKER
      (runFailures DEFAULT_CIRCUIT_BREAKER "s" "p/m1" [1, 2, 3]) "p/m1" 300003 = true := by
  have h := circuitBreaker_opens_then_halfOpens DEFAULT_CIRCUIT_BREAKER "s" "p/m1" [1, 2, 3]
    (by decide) (by decide) (by decide)
  exact ⟨by decide, (h.1 4 (by decide)).1, (h.2.1 300003 (by decide)).1⟩

/-- C7: `recordOutcome` for a session key with no pending decision leaves the
entire tracker state unchanged, and a pending decision is consumed at most
once: a second `recordOutcome` for the same session key is a no-op. -/
theorem recordOutcome_noop_and_at_most_once (cfg : CircuitBreakerConfig) (st : TrackerState)
    (key : String) :
    (mapGet st.decisions key = none →
      ∀ (success : Bool) (now : Int), recordOutcome cfg st key success now = st) ∧
    (∀ (s1 : Bool) (t1 : Int) (s2 : Bool) (t2 : Int),
      recordOutcome cfg (recordOutcome cfg st key s1 t1) key s2 t2 =
        recordOutcome cfg st key s1 t1) := by
  have hnone : ∀ (st' : TrackerState), mapGet st'.decisions key = none →
      ∀ (s : Bool) (now : Int), recordOutcome cfg st' key s now = st' := by
    intro st' hget s now
    unfold recordOutcome
    rw [hget]
  refine ⟨hnone st, ?_⟩
  intro s1 t1 s2 t2
  cases hget : mapGet st.decisions key with
  | none =>
    rw [hnone st hget s1 t1]
    exact hnone st hget s2 t2
  | some d =>
    apply hnone
    unfold recordOutcome
    rw [hget]
    exact mapGet_delete_self key st.decisions

/-- Witness for C7 on a tracker holding one pending decision. -/
theorem recordOutcome_noop_witness :
    mapGet tracker1.decisions "x" = none ∧
    recordOutcome DEFAULT_CIRCUIT_BREAKER tracker1 "x" true 5 = tracker1 ∧
    recordOutcome DEFAULT_CIRCUIT_BREAKER
        (recordOutcome DEFAULT_CIRCUIT_BREAKER tracker1 "k" false 1) "k" false 2 =
      recordOutcome DEFAULT_CIRCUIT_BREAKER tracker1 "k" false 1 := by
  have h := recordOutcome_noop_and_at_most_once DEFAULT_CIRCUIT_BREAKER tracker1 "x"
  have h2 := recordOutcome_noop_and_at_most_once DEFAULT_CIRCUIT_BREAKER tracker1 "k"
  exact ⟨by decide, h.1 (by decide) true 5, h2.2 false 1 false 2⟩

/-- C8: for an agent not in the cache, a `get` reads the store and caches a
non-null document; a second `get` within `ttlMs` returns the cached document
with no store read regardless of the store's current value; a null store
result is never cached (the state is unchanged, so every call while
unprovisioned re-queries); and `invalidate(agentId)` between two `get`s
forces the second to perform a fresh store read. -/
theorem routingCache_single_read_and_invalidate (ttl : Int) (st : CacheState)
    (aid : String) (d : RoutingContextDoc) (t1 t2 : Int)
    (hmiss : mapGet st aid = none)
    (hfresh : 0 ≤ t2 - t1 ∧ t2 - t1 < ttl) :
    cacheGet ttl st aid (some d) t1 = (some d, mapSet st aid ⟨d, t1⟩, true) ∧
    (∀ store2 : Option RoutingContextDoc,
      cacheGet ttl (mapSet st aid ⟨d, t1⟩) aid store2 t2 =
        (some d, mapSet st aid ⟨d, t1⟩, false)) ∧
    (∀ t : Int, cacheGet ttl st aid none t = (none, st, true)) ∧
    (∀ (store3 : Option RoutingContextDoc) (t3 : Int),
      (cacheGet ttl (cacheInvalidate (mapSet st aid ⟨d, t1⟩) (some aid)) aid store3 t3).2.2 =
        true) := by
  obtain ⟨hf1, hf2⟩ := hfresh
  refine ⟨?_, ?_, ?_, ?_⟩
  · simp only [cacheGet, hmiss]
  · intro store2
    simp only [cacheGet, mapGet_set_self]
    rw [if_pos (by omega)]
  · intro t
    simp only [cacheGet, hmiss]
  · intro store3 t3
    simp only [cacheGet, cacheInvalidate, mapGet_delete_self]
    cases store3 <;> rfl

lemma deactivate_deactivate (m : RoutingModel) : deactivate (deactivate m) = deactivate m := rfl

lemma mergeModels_id_mem (existing discovered : List RoutingModel) (x : String) :
    x ∈ (mergeModelsIncremental existing discovered).map (fun m => m.id) ↔
      x ∈ existing.map (fun m => m.id) ∨ x ∈ discovered.map (fun m => m.id) := by
  unfold mergeModelsIncremental
  simp only [List.map_append, List.mem_append, List.map_map, List.mem_map, Function.comp]
  constructor
  · rintro (⟨m, hm, rfl⟩ | ⟨m, hm, rfl⟩)
    · by_cases hc : (discovered.map (fun mm => mm.id)).contains m.id
      · left; exact ⟨m, hm, by rw [if_pos hc]⟩
      · left; exact ⟨m, hm, by rw [if_neg hc]; rfl⟩
    · right
      exact ⟨m, (List.mem_filter.mp hm).1, rfl⟩
  · rintro (⟨m, hm, rfl⟩ | ⟨m, hm, rfl⟩)
    · by_cases hc : (discovered.map (fun mm => mm.id)).contains m.id
      · left; exact ⟨m, hm, by rw [if_pos hc]⟩
      · left; exact ⟨m, hm, by rw [if_neg hc]; rfl⟩
    · by_cases he : (existing.map (fun mm => mm.id)).contains m.id
      · simp only [List.contains, List.elem_eq_mem, decide_eq_true_eq, List.mem_map] at he
        obtain ⟨m0, hm0, hid⟩ := he
        by_cases hc : (discovered.map (fun mm => mm.id)).contains m0.id
        · left; exact ⟨m0, hm0, by rw [if_pos hc]; exact hid⟩
        · left; exact ⟨m0, hm0, by rw [if_neg hc]; exact hid⟩
      · right
        refine ⟨m, List.mem_filter.mpr ⟨hm, ?_⟩, rfl⟩
        simp only [Bool.not_eq_true'] at he ⊢
        simpa using he

lemma merge_keep_fixed (existing discovered : List RoutingModel) :
    ∀ m ∈ mergeModelsIncremental existing discovered,
      (if (discovered.map (fun mm => mm.id)).contains m.id then m else deactivate m) = m := by
  intro m hm
  unfold mergeModelsIncremental at hm
  rcases List.mem_append.mp hm with hA | hB
  · obtain ⟨m0, hm0, rfl⟩ := List.mem_map.mp hA
    by_cases hc : (discovered.map (fun mm => mm.id)).contains m0.id
    · rw [if_pos hc, if_pos hc]
    · rw [if_neg hc]
      have : (deactivate m0).id = m0.id := rfl
      rw [if_neg (by rw [this]; exact hc)]
      exact deactivate_deactivate m0
  · have hmem : m ∈ discovered := (List.mem_filter.mp hB).1
    rw [if_pos ?_]
    simp only [List.contains, List.elem_eq_mem, decide_eq_true_eq, List.mem_map]
    exact ⟨m, hmem, rfl⟩

/-- C9: `mergeModelsIncremental` is idempotent in its first argument for a
fixed discovered set; every existing model whose id is still discovered is
kept verbatim; every existing model whose id is no longer discovered is kept
marked `active: false`; and every newly discovered model is appended. -/
theorem mergeModelsIncremental_spec (existing discovered : List RoutingModel) :
    mergeModelsIncremental (mergeModelsIncremental existing discovered) discovered =
      mergeModelsIncremental existing discovered ∧
    (∀ m ∈ existing, (∃ d ∈ discovered, d.id = m.id) →
      m ∈ mergeModelsIncremental existing discovered) ∧
    (∀ m ∈ existing, (¬∃ d ∈ discovered, d.id = m.id) →
      deactivate m ∈ mergeModelsIncremental existing discovered) ∧
    (∀ m ∈ discovered, (¬∃ e ∈ existing, e.id = m.id) →
      m ∈ mergeModelsIncremental existing discovered) := by
  refine ⟨?_, ?_, ?_, ?_⟩
  · have hmap : (mergeModelsIncremental existing discovered).map
        (fun m => if (discovered.map (fun mm => mm.id)).contains m.id then m else deactivate m) =
        mergeModelsIncremental existing discovered := by
      rw [List.map_congr_left (merge_keep_fixed existing discovered)]
      simp
    have hfil : discovered.filter (fun m =>
        !((mergeModelsIncremental existing discovered).map (fun mm => mm.id)).contains m.id) =
        [] := by
      rw [List.filter_eq_nil_iff]
      intro m hm
      simp only [Bool.not_eq_true', Bool.not_eq_false]
      simp only [List.contains, List.elem_eq_mem, decide_eq_true_eq]
      exact (mergeModels_id_mem existing discovered m.id).mpr
        (Or.inr (List.mem_map.mpr ⟨m, hm, rfl⟩))
    have step : mergeModelsIncremental (mergeModelsIncremental existing discovered) discovered =
        (mergeModelsIncremental existing discovered).map (fun m =>
          if (discovered.map (fun mm => mm.id)).contains m.id then m else deactivate m) ++
        discovered.filter (fun m =>
          !((mergeModelsIncremental existing discovered).map (fun mm => mm.id)).contains m.id) :=
      rfl
    rw [step, hmap, hfil, List.append_nil]
  · intro m hm ⟨d0, hd0, hid⟩
    unfold mergeModelsIncremental
    apply List.mem_append.mpr
    left
    apply List.mem_map.mpr
    refine ⟨m, hm, ?_⟩
    rw [if_pos ?_]
    simp only [List.contains, List.elem_eq_mem, decide_eq_true_eq, List.mem_map]
    exact ⟨d0, hd0, hid⟩
  · intro m hm hnone
    unfold mergeModelsIncremental
    apply List.mem_append.mpr
    left
    apply List.mem_map.mpr
    refine ⟨m, hm, ?_⟩
    rw [if_neg ?_]
    simp only [List.contains, List.elem_eq_mem, decide_eq_true_eq, List.mem_map]
    exact hnone
  · intro m hm hnone
    unfold mergeModelsIncremental
    apply List.mem_append.mpr
    right
    apply List.mem_filter.mpr
    refine ⟨hm, ?_⟩
    simp only [Bool.not_eq_true']
    simp only [List.contains, List.elem_eq_mem, decide_eq_false_iff_not, List.mem_map]
    exact hnone

/-- Witness for C9 on concrete model lists. -/
theorem mergeModelsIncremental_spec_witness :
    midM0 ∈ mergeModelsIncremental [fastM0, midM0] [midM0] ∧
    deactivate fastM0 ∈ mergeModelsIncremental [fastM0, midM0] [midM0] := by
  have h := mergeModelsIncremental_spec [fastM0, midM0] [midM0]
  exact ⟨h.2.1 midM0 (by decide) ⟨midM0, by decide, rfl⟩,
    h.2.2.1 fastM0 (by decide) (by decide)⟩

/-- C5 (evidence of the divergence): the cache-miss store read of
`RoutingCache.get` is awaited with no timeout wrapper, so when the read
never settles the call diverges instead of yielding null at a 3000 ms
deadline, and when the read rejects the call throws (the surrounding
`before_agent_start` hook catches it); a null result leaves the cache
unchanged. -/
theorem routingCacheGet_miss_unbounded :
    (∀ ttl now : Int, cacheGetAsync ttl [] "default" .hangs now = .diverges) ∧
    (∀ ttl now : Int, cacheGetAsync ttl [] "default" .failure now = .throws) ∧
    (∀ (ttl now : Int) (aid : String),
      cacheGetAsync ttl [] aid (.value none) now = .returns (none, [])) := by
  exact ⟨fun ttl now => rfl, fun ttl now => rfl, fun ttl now aid => rfl⟩

/-- C10: in the heap model of the resolver's rule-selection lines, the
in-place sort operates on the array freshly allocated by `filter`, so every
array reachable before the call — in particular the rules array stored in
the routing document — is unchanged, and the selected rule is the head of
the sorted fresh copy. -/
theorem selectRuleHeap_frame (heap : RuleHeap) (rulesRef : Nat) (category : String)
    (tools : Bool) :
    (∀ i, i < heap.length →
      (selectRuleHeap heap rulesRef category tools).1.getD i [] = heap.getD i []) ∧
    (selectRuleHeap heap rulesRef category tools).2 =
      (((heap.getD rulesRef []).filter fun r =>
          r.«if» == category && r.tools_in_context == tools).mergeSort ruleLE).head? := by
  constructor
  · intro i hi
    show ((heap ++ [_]).set heap.length _).getD i [] = heap.getD i []
    simp only [List.getD_eq_getElem?_getD]
    rw [List.getElem?_set_ne (by omega)]
    rw [List.getElem?_append_left hi]
  · rfl

/-- Witness for C10 on a one-array heap. -/
theorem selectRuleHeap_frame_witness :
    (selectRuleHeap [[rule0]] 0 "CHAT" true).1.getD 0 [] = [rule0] := by
  have h := (selectRuleHeap_frame [[rule0]] 0 "CHAT" true).1 0 (by decide)
  rw [h]
  rfl

/-- Witness for C8 at a concrete empty cache and document. -/
theorem routingCache_single_read_witness :
    cacheGet 60000 [] "default" (some doc0) 0 = (some doc0, [("default", ⟨doc0, 0⟩)], true) ∧
    cacheGet 60000 [("default", ⟨doc0, 0⟩)] "default" none 1 =
      (some doc0, [("default", ⟨doc0, 0⟩)], false) := by
  have h := routingCache_single_read_and_invalidate 60000 [] "default" doc0 0 1 rfl
    (by constructor <;> decide)
  exact ⟨h.1, h.2.1 none⟩

lemma mapGet_some_mem {V : Type} {m : List (String × V)} {k : String} {v : V}
    (h : mapGet m k = some v) : (k, v) ∈ m := by
  unfold mapGet at h
  cases hf : m.find? (fun p => p.1 == k) with
  | none => rw [hf] at h; cases h
  | some pr =>
    rw [hf] at h
    have hmem := List.mem_of_find?_eq_some hf
    have hkey := List.find?_some hf
    simp only [Option.map_some', Option.some.injEq] at h
    simp only [beq_iff_eq] at hkey
    have : (k, v) = pr := by
      cases pr with
      | mk a b =>
        simp only at hkey h
        rw [hkey, h]
    rw [this]
    exact hmem

/-- C6: the complexity returned by `classifyPrompt` equals
`min(high, low + score)` for the winning category's score, where
`[low, high]` is the winning category's declared range (`[1, 3]` when
undeclared), and hence lies within that range whenever the declared ranges
are well-formed. -/
theorem classifyPrompt_complexity_in_range (regexTest : String → String → Bool)
    (prompt : String) (c : ClassificationConfig)
    (hwf : ∀ p ∈ c.categories, p.2.complexity_range.1 ≤ p.2.complexity_range.2) :
    ∀ lo hi : Int,
      ((mapGet c.categories (classifyPrompt regexTest prompt c).category).map
        (fun cd => cd.complexity_range)).getD (1, 3) = (lo, hi) →
      lo ≤ (classifyPrompt regexTest prompt c).complexity ∧
      (classifyPrompt regexTest prompt c).complexity ≤ hi ∧
      (classifyPrompt regexTest prompt c).complexity =
        min hi (lo + ((pickBest (classifyScores regexTest prompt c)).2 : Int)) := by
  intro lo hi heq
  have hcompl : (classifyPrompt regexTest prompt c).complexity =
      min (((mapGet c.categories (classifyPrompt regexTest prompt c).category).map
          (fun cd => cd.complexity_range)).getD (1, 3)).2
        ((((mapGet c.categories (classifyPrompt regexTest prompt c).category).map
          (fun cd => cd.complexity_range)).getD (1, 3)).1 +
          ((pickBest (classifyScores regexTest prompt c)).2 : Int)) := rfl
  rw [hcompl, heq]
  have hs : (0 : Int) ≤ ((pickBest (classifyScores regexTest prompt c)).2 : Int) :=
    Int.natCast_nonneg _
  have hlohi : lo ≤ hi := by
    cases hfind : mapGet c.categories (classifyPrompt regexTest prompt c).category with
    | none =>
      rw [hfind] at heq
      simp only [Option.map_none', Option.getD_none, Prod.mk.injEq] at heq
      omega
    | some cd =>
      rw [hfind] at heq
      simp only [Option.map_some', Option.getD_some] at heq
      have hmem := mapGet_some_mem hfind
      have := hwf _ hmem
      rw [heq] at this
      exact this
  refine ⟨?_, min_le_left _ _, rfl⟩
  rw [le_min_iff]
  exact ⟨hlohi, by omega⟩

/-- Witness for C6 at the spec's classifier scenario. -/
theorem classifyPrompt_complexity_witness :
    (classifyPrompt (fun _ _ => false) "ciao, come stai?" classification1).category = "CHAT" ∧
    1 ≤ (classifyPrompt (fun _ _ => false) "ciao, come stai?" classification1).complexity ∧
    (classifyPrompt (fun _ _ => false) "ciao, come stai?" classification1).complexity ≤ 3 := by
  have h := classifyPrompt_complexity_in_range (fun _ _ => false) "ciao, come stai?"
    classification1 (by decide) 1 3 (by decide)
  exact ⟨by decide, h.1, h.2.1⟩

lemma isPrefixOf_append_self (l r : List Char) : l.isPrefixOf (l ++ r) = true := by
  induction l with
  | nil => cases r <;> rfl
  | cons c t ih =>
    rw [List.cons_append, List.isPrefixOf]
    simp only [beq_self_eq_true, Bool.true_and]
    exact ih

lemma isPrefixOf_append_cancel (a b c : List Char) :
    (a ++ b).isPrefixOf (a ++ c) = b.isPrefixOf c := by
  induction a with
  | nil => rfl

  | cons x t ih =>
    rw [List.cons_append, List.cons_append, List.isPrefixOf]
    simp only [beq_self_eq_true, Bool.true_and]
    exact ih

lemma containsSub_of_isPrefixOf (t n : List Char) (h : n.isPrefixOf t = true) :
    containsSub t n = true := by
  cases t with
  | nil =>
    cases n with
    | nil => rfl
    | cons c m => cases h
  | cons c t' =>
    rw [containsSub, h]
    rfl

lemma containsSub_append_left (pre t n : List Char) (h : containsSub t n = true) :
    containsSub (pre ++ t) n = true := by
  induction pre with
  | nil => exact h
  | cons c p ih =>
    rw [List.cons_append, containsSub, ih]
    exact Bool.or_true _

/-- C3 (amended): when the matched rule carries its own reason and the
selected tier differs from the requested one, the returned reason is the
rule's reason followed by " (escalated <from>→<to>)", which contains
"<from>→<to>"; when the rule has no reason, the synthesized reason is
"rule: <category>+tools=<bool>→<selectedTier>", recording only the selected
tier. -/
theorem resolveRoutingOverride_escalation_reason (regexTest : String → String → Bool)
    (prompt : String) (doc : RoutingContextDoc) (tools : Bool)
    (health : Option (String → Bool)) (rule : RoutingRule) (m : RoutingModel) (et : String)
    (hrule : matchedRuleOf doc
      (classifyPrompt regexTest prompt doc.classification).category tools = some rule)
    (hesc : getModelByTierWithEscalation doc rule.«then» tools health = some (m, et))
    (hne : et ≠ rule.«then») :
    (∀ s, rule.reason = some s →
      resolveRoutingOverride regexTest prompt doc tools health =
        .override (providerOf m.id) (modelOf m.id)
          (s ++ " (escalated " ++ rule.«then» ++ "→" ++ et ++ ")")
          (classifyPrompt regexTest prompt doc.classification).category
          (classifyPrompt regexTest prompt doc.classification).complexity et ∧
      strIncludes (s ++ " (escalated " ++ rule.«then» ++ "→" ++ et ++ ")")
        (rule.«then» ++ "→" ++ et) = true) ∧
    (rule.reason = none →
      resolveRoutingOverride regexTest prompt doc tools health =
        .override (providerOf m.id) (modelOf m.id)
          ("rule: " ++ (classifyPrompt regexTest prompt doc.classification).category ++
            "+tools=" ++ boolStr tools ++ "→" ++ et)
          (classifyPrompt regexTest prompt doc.classification).category
          (classifyPrompt regexTest prompt doc.classification).complexity et) := by
  constructor
  · intro s hs
    constructor
    · simp only [resolveRoutingOverride, hrule, hesc, hs]
      rw [if_pos hne]
      simp [String.append_assoc]
    · unfold strIncludes
      simp only [String.data_append, List.append_assoc]
      apply containsSub_append_left
      apply containsSub_append_left
      apply containsSub_of_isPrefixOf
      rw [isPrefixOf_append_cancel, isPrefixOf_append_cancel]
      exact isPrefixOf_append_self _ _
  · intro hnone
    simp only [resolveRoutingOverride, hrule, hesc, hnone]

/-- Witness for C3 (amended) at the spec's scenario with a reason-carrying
rule. -/
theorem resolveRoutingOverride_escalation_reason_witness :
    resolveRoutingOverride (fun _ _ => false) "hello" doc1 true none =
      .override "p" "m1" "prefer fast (escalated fast→mid)" "CHAT" 1 "mid" ∧
    strIncludes "prefer fast (escalated fast→mid)" "fast→mid" = true := by
  have hcat : (classifyPrompt (fun _ _ => false) "hello" doc1.classification).category =
      "CHAT" := by decide
  have hfil : doc1.routing.rules.filter
      (fun r => r.«if» == "CHAT" && r.tools_in_context == true) = [rule1] := by decide
  have hrule : matchedRuleOf doc1
      (classifyPrompt (fun _ _ => false) "hello" doc1.classification).category true =
      some rule1 := by
    rw [hcat]
    unfold matchedRuleOf
    rw [hfil, List.mergeSort_singleton]
    rfl
  have h := (resolveRoutingOverride_escalation_reason (fun _ _ => false) "hello" doc1 true
    none rule1 midM0 "mid" hrule (by decide) (by decide)).1 "prefer fast" rfl
  constructor
  · rw [h.1]
    decide
  · decide

/-- Counterexample to C3 as stated: in the spec's scenario (CHAT rule
targeting fast, tools in context, fast model without tools, mid model with
tools) with a rule that has no reason field, the synthesized reason is
"rule: CHAT+tools=true→mid", which does not contain "fast→mid". -/
theorem resolveRoutingOverride_synth_reason_counterexample :
    resolveRoutingOverride (fun _ _ => false) "hello" doc0 true none =
      .override "p" "m1" "rule: CHAT+tools=true→mid" "CHAT" 1 "mid" ∧
    strIncludes "rule: CHAT+tools=true→mid" "fast→mid" = false ∧
    rule0.«then» = "fast" ∧ rule0.reason = none ∧ doc0.routing.rules = [rule0] := by
  have hcat : classifyPrompt (fun _ _ => false) "hello" doc0.classification =
      ⟨"CHAT", 1, []⟩ := by decide
  have hfil : doc0.routing.rules.filter
      (fun r => r.«if» == "CHAT" && r.tools_in_context == true) = [rule0] := by decide
  have hrule : matchedRuleOf doc0 "CHAT" true = some rule0 := by
    unfold matchedRuleOf
    rw [hfil, List.mergeSort_singleton]
    rfl
  have hesc : getModelByTierWithEscalation doc0 "fast" true none = some (midM0, "mid") := by
    decide
  refine ⟨?_, by decide, rfl, rfl, rfl⟩
  simp only [resolveRoutingOverride, hcat, hrule, hesc, rule0]
  decide

lemma ruleLE_trans (a b c : RoutingRule) : ruleLE a b → ruleLE b c → ruleLE a c := by
  unfold ruleLE
  simp only [decide_eq_true_eq]
  omega

lemma ruleLE_total (a b : RoutingRule) : ruleLE a b || ruleLE b a := by
  unfold ruleLE
  simp only [Bool.or_eq_true, decide_eq_true_eq]
  omega

lemma bestRule_cons_none (a : RoutingRule) (t : List RoutingRule)
    (h : bestRule t = none) : bestRule (a :: t) = some a := by
  unfold bestRule
  rw [h]

lemma bestRule_cons_some (a : RoutingRule) (t : List RoutingRule) (b : RoutingRule)
    (h : bestRule t = some b) :
    bestRule (a :: t) = if a.priority < b.priority then some b else some a := by
  unfold bestRule
  rw [h]

lemma bestRule_mem : ∀ (l : List RoutingRule) (r : RoutingRule), bestRule l = some r → r ∈ l := by
  intro l
  induction l with
  | nil => intro r h; cases h
  | cons a t ih =>
    intro r h
    cases hb : bestRule t with
    | none =>
      rw [bestRule_cons_none a t hb] at h
      cases h
      exact List.mem_cons_self _ _
    | some b =>
      rw [bestRule_cons_some a t b hb] at h
      by_cases hp : a.priority < b.priority
      · rw [if_pos hp] at h
        cases h
        exact List.mem_cons_of_mem _ (ih _ hb)
      · rw [if_neg hp] at h
        cases h
        exact List.mem_cons_self _ _

lemma head_mergeSort_eq_bestRule :
    ∀ l : List RoutingRule, (l.mergeSort ruleLE).head? = bestRule l := by
  intro l
  induction l with
  | nil => rw [List.mergeSort_nil]; rfl
  | cons a t ih =>
    obtain ⟨l₁, l₂, h₁, h₂, h₃⟩ := List.mergeSort_cons ruleLE_trans ruleLE_total a t
    cases l₁ with
    | nil =>
      rw [List.nil_append] at h₁ h₂
      rw [h₁]
      have hsorted := List.sorted_mergeSort ruleLE_trans ruleLE_total (a :: t)
      rw [h₁] at hsorted
      cases hb : bestRule t with
      | none => rw [bestRule_cons_none a t hb]; rfl
      | some b =>
        have hbmem : b ∈ l₂ := by
          have hm : b ∈ List.mergeSort t ruleLE := List.mem_mergeSort.mpr (bestRule_mem t b hb)
          rw [h₂] at hm
          exact hm
        have hle : ruleLE a b := (List.pairwise_cons.mp hsorted).1 b hbmem
        unfold ruleLE at hle
        simp only [decide_eq_true_eq] at hle
        rw [bestRule_cons_some a t b hb, if_neg (by omega)]
        rfl
    | cons x l₁' =>
      have hheadt : (List.mergeSort t ruleLE).head? = some x := by
        rw [h₂]
        rfl
      have hbt : bestRule t = some x := by rw [← ih, hheadt]
      have hax : ¬ ruleLE a x := by
        have := h₃ x (List.mem_cons_self _ _)
        simpa using this
      unfold ruleLE at hax
      simp only [decide_eq_true_eq] at hax
      rw [h₁, bestRule_cons_some a t x hbt, if_pos (by omega)]
      rfl

lemma bestRule_max : ∀ (l : List RoutingRule) (r : RoutingRule), bestRule l = some r →
    ∀ x ∈ l, x.priority ≤ r.priority := by
  intro l
  induction l with
  | nil => intro r h; cases h
  | cons a t ih =>
    intro r h x hx
    cases hb : bestRule t with
    | none =>
      rw [bestRule_cons_none a t hb] at h
      cases h
      rcases List.mem_cons.mp hx with h1 | h1
      · rw [h1]
      · cases t with
        | nil => cases h1
        | cons c u =>
          cases hc : bestRule u with
          | none => rw [bestRule_cons_none c u hc] at hb; cases hb
          | some d =>
            rw [bestRule_cons_some c u d hc] at hb
            by_cases hp : c.priority < d.priority
            · rw [if_pos hp] at hb; cases hb
            · rw [if_neg hp] at hb; cases hb
    | some b =>
      rw [bestRule_cons_some a t b hb] at h
      by_cases hp : a.priority < b.priority
      · rw [if_pos hp] at h
        cases h
        rcases List.mem_cons.mp hx with h1 | h1
        · rw [h1]; omega
        · exact ih _ hb x h1
      · rw [if_neg hp] at h
        cases h
        rcases List.mem_cons.mp hx with h1 | h1
        · rw [h1]
        · have := ih _ hb x h1
          omega

lemma bestRule_first : ∀ (l : List RoutingRule) (r : RoutingRule), bestRule l = some r →
    ∃ l₁ l₂, l = l₁ ++ r :: l₂ ∧ ∀ x ∈ l₁, x.priority < r.priority := by
  intro l
  induction l with
  | nil => intro r h; cases h
  | cons a t ih =>
    intro r h
    cases hb : bestRule t with
    | none =>
      rw [bestRule_cons_none a t hb] at h
      cases h
      exact ⟨[], t, rfl, by intro x hx; cases hx⟩
    | some b =>
      rw [bestRule_cons_some a t b hb] at h
      by_cases hp : a.priority < b.priority
      · rw [if_pos hp] at h
        cases h
        obtain ⟨l₁, l₂, hsplit, hlt⟩ := ih _ hb
        refine ⟨a :: l₁, l₂, by rw [hsplit]; rfl, ?_⟩
        intro x hx
        rcases List.mem_cons.mp hx with h1 | h1
        · rw [h1]; exact hp
        · exact hlt x h1
      · rw [if_neg hp] at h
        cases h
        exact ⟨[], t, rfl, by intro x hx; cases hx⟩

lemma eq_of_mem_same_priority :
    ∀ (l : List RoutingRule), l.Pairwise (fun x y => x.priority ≠ y.priority) →
    ∀ r r', r ∈ l → r' ∈ l → r.priority = r'.priority → r = r' := by
  intro l
  induction l with
  | nil => intro _ r r' h; cases h
  | cons a t ih =>
    intro hpw r r' hr hr' hpr
    obtain ⟨hhead, htail⟩ := List.pairwise_cons.mp hpw
    rcases List.mem_cons.mp hr with h1 | h1 <;> rcases List.mem_cons.mp hr' with h2 | h2
    · rw [h1, h2]
    · exfalso
      rw [h1] at hpr
      exact hhead r' h2 hpr
    · exfalso
      rw [h2] at hpr
      exact hhead r h1 hpr.symm
    · exact ih htail r r' h1 h2 hpr

lemma bestRule_isSome : ∀ (l : List RoutingRule), l ≠ [] → (bestRule l).isSome = true := by
  intro l hne
  cases l with
  | nil => exact absurd rfl hne
  | cons a t =>
    cases hb : bestRule t with
    | none => rw [bestRule_cons_none a t hb]; rfl
    | some b =>
      rw [bestRule_cons_some a t b hb]
      by_cases hp : a.priority < b.priority
      · rw [if_pos hp]; rfl
      · rw [if_neg hp]; rfl

lemma bestRule_perm_of_distinct (l l' : List RoutingRule) (hperm : l.Perm l')
    (hdist : l.Pairwise (fun x y => x.priority ≠ y.priority)) :
    bestRule l = bestRule l' := by
  cases hl : l with
  | nil =>
    rw [hl] at hperm
    rw [hperm.nil_eq]
  | cons a t =>
    rw [hl] at hperm hdist
    have hne' : l' ≠ [] := by
      intro h
      rw [h] at hperm
      have := hperm.symm.nil_eq
      cases this
    cases hb : bestRule (a :: t) with
    | none =>
      have := bestRule_isSome (a :: t) (by simp)
      rw [hb] at this
      cases this
    | some r =>
      cases hb' : bestRule l' with
      | none =>
        have := bestRule_isSome l' hne'
        rw [hb'] at this
        cases this
      | some r' =>
        have hrmem : r ∈ a :: t := bestRule_mem _ _ hb
        have hrmax := bestRule_max _ _ hb
        have hr'mem : r' ∈ a :: t := hperm.mem_iff.mpr (bestRule_mem _ _ hb')
        have hr'max := bestRule_max _ _ hb'
        have h1 : r.priority ≤ r'.priority := hr'max r (hperm.mem_iff.mp hrmem)
        have h2 : r'.priority ≤ r.priority := hrmax r' hr'mem
        have : r = r' := eq_of_mem_same_priority (a :: t) hdist r r' hrmem hr'mem (by omega)
        rw [this]


/-- C4: the resolver's rule selection equals the spec-side `bestRule`
(maximum priority, ties broken by original list order); any selected rule is
a matching rule of maximal priority and is the first such rule in the stored
list; and the selection is invariant under any reordering of the rules when
the matching rules have pairwise distinct priorities. -/
theorem matchedRule_max_priority_first (doc : RoutingContextDoc) (category : String)
    (tools : Bool) :
    matchedRuleOf doc category tools =
      bestRule (doc.routing.rules.filter fun r =>
        r.«if» == category && r.tools_in_context == tools) ∧
    (∀ r, matchedRuleOf doc category tools = some r →
      r ∈ (doc.routing.rules.filter fun r =>
        r.«if» == category && r.tools_in_context == tools) ∧
      (∀ x ∈ (doc.routing.rules.filter fun r =>
          r.«if» == category && r.tools_in_context == tools), x.priority ≤ r.priority) ∧
      ∃ l₁ l₂, (doc.routing.rules.filter fun r =>
          r.«if» == category && r.tools_in_context == tools) = l₁ ++ r :: l₂ ∧
        ∀ x ∈ l₁, x.priority < r.priority) ∧
    (∀ doc' : RoutingContextDoc, doc.routing.rules.Perm doc'.routing.rules →
      (doc.routing.rules.filter fun r =>
        r.«if» == category && r.tools_in_context == tools).Pairwise
          (fun x y => x.priority ≠ y.priority) →
      matchedRuleOf doc category tools = matchedRuleOf doc' category tools) := by
  have hkey : ∀ d : RoutingContextDoc, matchedRuleOf d category tools =
      bestRule (d.routing.rules.filter fun r =>
        r.«if» == category && r.tools_in_context == tools) := by
    intro d
    unfold matchedRuleOf
    exact head_mergeSort_eq_bestRule _
  refine ⟨hkey doc, ?_, ?_⟩
  · intro r hr
    rw [hkey doc] at hr
    exact ⟨bestRule_mem _ _ hr, bestRule_max _ _ hr, bestRule_first _ _ hr⟩
  · intro doc' hperm hdist
    rw [hkey doc, hkey doc']
    exact bestRule_perm_of_distinct _ _ (hperm.filter _) hdist

/-- Witness for C4: concrete selection, and invariance across the two
orderings of a two-rule set with distinct priorities. -/
theorem matchedRule_max_priority_first_witness :
    matchedRuleOf doc0 "CHAT" true = some rule0 ∧
    rule0 ∈ (doc0.routing.rules.filter fun r =>
      r.«if» == "CHAT" && r.tools_in_context == true) ∧
    matchedRuleOf doc3 "CHAT" true = matchedRuleOf doc3' "CHAT" true := by
  have h := matchedRule_max_priority_first doc0 "CHAT" true
  have hrule : matchedRuleOf doc0 "CHAT" true = some rule0 := by
    rw [h.1]
    decide
  refine ⟨hrule, ((h.2.1) rule0 hrule).1, ?_⟩
  exact (matchedRule_max_priority_first doc3 "CHAT" true).2.2 doc3' (by decide) (by decide)
